import Mathlib

/-!
Shallow embedding of `src/data_utils.py` of the Lattice-Bytenite-Smartrader
repository: the data-reliability and normalization layer (record validators,
the dividend-yield sanitizer, numeric formatters, and date-based recency
filters), together with theorems settling the specification claims.

Modelling conventions:
* Python `float` values are modelled as exact rationals (`ℚ`).  Every concrete
  input appearing in the claims (`0.5`, `50`, `1234.5`, ...) is exactly
  representable in binary floating point, so the rational model agrees with
  CPython on all of them.
* A Python attribute that may be missing, `None`, or present is modelled by
  the `Attr` type; `getattr(obj, field, default)` is translated explicitly.
* Python code that can raise an uncaught exception is modelled in `Except`;
  code whose exceptions are all caught (or that cannot raise) is a total
  function.
* Python `datetime.date` values are modelled by their day ordinal (an
  integer); `date` subtraction and `timedelta(days = n)` comparisons become
  integer subtraction and comparison.
-/

deriving instance DecidableEq for Except

namespace SmarTrader

/-- Python attribute slot of a loosely-typed record: the attribute may be
absent from the object, present but `None`, or present with a value. -/
inductive Attr (α : Type) where
  | missing : Attr α
  | null : Attr α
  | val : α → Attr α
deriving DecidableEq, Repr

/-- Argument passed to a numeric formatter: `None`, an `int`/`float`
(modelled as an exact rational), or some other object on which `float()`
raises `TypeError`/`ValueError` (for example the string `"abc"` or a list). -/
inductive PyVal where
  | none : PyVal
  | num : ℚ → PyVal
  | nonNumeric : PyVal
deriving DecidableEq, Repr

/-! ### CPython numeric rendering

`round(x)` on a Python float and the fixed-precision float format specs
(`.Nf`, `,.Nf`, `,`) round half to even.  On the exact rationals of this
model that is `roundHalfEven`. -/

/-- Round a rational to the nearest integer, ties to even: the semantics of
CPython `round` (and of float formatting) on exactly-representable values. -/
def roundHalfEven (q : ℚ) : ℤ :=
  let f := ⌊q⌋
  let r := q - (f : ℚ)
  if r < 1/2 then f
  else if (1:ℚ)/2 < r then f + 1
  else if f % 2 = 0 then f else f + 1

/-- Left-pad a digit string with zeros up to width `d`. -/
def padZeros (s : String) (d : ℕ) : String :=
  String.mk (List.replicate (d - s.length) '0') ++ s

/-- Insert a comma after every third character of a reversed digit list
(helper for the `,` thousands-separator format spec). -/
def digitsGroupRev : List Char → List Char
  | a :: b :: c :: d :: rest => a :: b :: c :: ',' :: digitsGroupRev (d :: rest)
  | l => l

/-- Group the digits of a decimal numeral with commas, as Python `f"{n:,}"`
does for the integer part. -/
def groupDigits (s : String) : String :=
  String.mk (digitsGroupRev s.toList.reverse).reverse

/-- Python `f"{value:.{d}f}"` on a float modelled as the rational `q`:
fixed-point rendering with `d` decimals, rounding half to even, with the
sign taken from the value (so a negative value rounding to zero renders as
`-0.00`, as in CPython). -/
def fixedFormat (q : ℚ) (d : ℕ) : String :=
  let n := roundHalfEven (q * (10:ℚ) ^ d)
  let sign := if q < 0 then "-" else ""
  let a := n.natAbs
  sign ++ Nat.repr (a / 10 ^ d) ++
    (if d = 0 then "" else "." ++ padZeros (Nat.repr (a % 10 ^ d)) d)

/-- Python `f"{value:,.{d}f}"`: like `fixedFormat` with the integer part
grouped by thousands separators. -/
def thousandsFixed (q : ℚ) (d : ℕ) : String :=
  let n := roundHalfEven (q * (10:ℚ) ^ d)
  let sign := if q < 0 then "-" else ""
  let a := n.natAbs
  sign ++ groupDigits (Nat.repr (a / 10 ^ d)) ++
    (if d = 0 then "" else "." ++ padZeros (Nat.repr (a % 10 ^ d)) d)

/-- Python `f"{n:,}"` on an `int`. -/
def intThousands (n : ℤ) : String :=
  (if n < 0 then "-" else "") ++ groupDigits (Nat.repr n.natAbs)

/-! ### Numeric formatters (`data_utils.py` lines 47-89) -/

/-- `format_percent(raw, decimals=2, *, assume_fractional=False)`: `"N/A"`
for `None` and for arguments on which `float()` raises (both exception types
are caught); otherwise multiply by 100 when `assume_fractional` is set or
the absolute value is at most 1, then render fixed-point with a trailing
percent sign. -/
def format_percent (raw : PyVal) (decimals : ℕ) (assume_fractional : Bool) : String :=
  match raw with
  | .none => "N/A"
  | .nonNumeric => "N/A"
  | .num v =>
    let value := if assume_fractional = true ∨ |v| ≤ 1 then v * 100 else v
    fixedFormat value decimals ++ "%"

/-- `format_ratio(raw, decimals=2)`: `"N/A"` only for `None`.  The f-string
`f"{raw:.{decimals}f}"` is not wrapped in any `try`, and the `f` format code
raises `ValueError` on a non-numeric object, so that case is an error. -/
def format_ratio (raw : PyVal) (decimals : ℕ) : Except Unit String :=
  match raw with
  | .none => .ok "N/A"
  | .num v => .ok (fixedFormat v decimals)
  | .nonNumeric => .error ()

/-- `format_currency(raw)`: `"N/A"` for `None` and for non-coercible
arguments (`float()` in a `try` catching `TypeError`/`ValueError`);
otherwise a dollar sign followed by the `,.2f` rendering. -/
def format_currency (raw : PyVal) : String :=
  match raw with
  | .none => "N/A"
  | .nonNumeric => "N/A"
  | .num v => "$" ++ thousandsFixed v 2

/-- `format_integer(raw)`: `"N/A"` for `None` and for non-coercible
arguments; otherwise `f"{int(round(float(raw))):,}"`. -/
def format_integer (raw : PyVal) : String :=
  match raw with
  | .none => "N/A"
  | .nonNumeric => "N/A"
  | .num v => intThousands (roundHalfEven v)

/-! ### Value sanitizer (`data_utils.py` lines 32-44) -/

/-- `sanitize_dividend_yield(raw)`: translated branch by branch from the
source, including the (subsumed) `raw > 1000` guard before `raw > 50`. -/
def sanitize_dividend_yield (raw : Option ℚ) : Option ℚ :=
  match raw with
  | none => none
  | some raw =>
    if raw < 0 then none
    else if raw > 1000 then none
    else if raw > 50 then none
    else if raw > 1 then
      let normalized := raw / 100
      if normalized ≤ 0.25 then some normalized else none
    else some raw

/-! ### Record validator (`data_utils.py` lines 11-29)

The Python body reads the five checked attributes with plain dotted access
inside `try ... except AttributeError: return False`; a missing attribute
therefore yields `False`, and an attribute that is present but `None` fails
the corresponding `is None` check.  The checks run in source order, so the
nested matches below follow the order of attribute accesses.
`trend_direction` is never read by the validator and is omitted from the
model. -/

/-- The five fields of a price-analysis record that the validator reads. -/
structure PriceAnalysis where
  total_return_percent : Attr ℚ
  volatility : Attr ℚ
  min_price : Attr ℚ
  max_price : Attr ℚ
  average_volume : Attr ℚ
deriving DecidableEq, Repr

/-- `is_price_analysis_reliable(pa)`. -/
def is_price_analysis_reliable (pa : Option PriceAnalysis) : Bool :=
  match pa with
  | none => false
  | some pa =>
    match pa.total_return_percent with
    | .missing => false
    | .null => false
    | .val trp =>
      if |trp| > 400 then false
      else
        match pa.volatility with
        | .missing => false
        | .null => false
        | .val vol =>
          if vol < 0 ∨ vol > 200 then false
          else
            match pa.min_price with
            | .missing => false
            | .null => false
            | .val mn =>
              match pa.max_price with
              | .missing => false
              | .null => false
              | .val mx =>
                if mn ≤ 0 ∨ mx ≤ 0 then false
                else if mn ≥ mx then false
                else
                  match pa.average_volume with
                  | .missing => false
                  | .null => false
                  | .val av =>
                    if av ≤ 0 then false
                    else true

/-- The specification's characterization of a reliable record: every
required field present (and non-null), `|total_return_percent| ≤ 400`,
`volatility` in `[0, 200]`, both price bounds positive, `min_price <
max_price`, and `average_volume` positive. -/
def reliableSpec (pa : PriceAnalysis) : Bool :=
  match pa.total_return_percent, pa.volatility, pa.min_price, pa.max_price,
      pa.average_volume with
  | .val trp, .val vol, .val mn, .val mx, .val av =>
      decide (|trp| ≤ 400) && decide (0 ≤ vol) && decide (vol ≤ 200) &&
      decide (0 < mn) && decide (0 < mx) && decide (mn < mx) && decide (0 < av)
  | _, _, _, _, _ => false

/-! ### Date parsing helpers

The filters parse `published_date` / `transaction_date` strings with
`datetime.datetime.strptime` over a fixed tuple of formats, then fall back
to `datetime.datetime.fromisoformat(value.replace("Z", "+00:00"))`, and
finally treat the record as undated.  The parsers below consume a list of
characters and model the combined effect of the CPython regex match plus
`datetime` construction (so, for instance, a month of `13` is rejected
whether the regex or the constructor rejects it). -/

/-- The characters removed by Python `str.strip()`. -/
def isPySpace (c : Char) : Bool :=
  c = ' ' ∨ c = '\t' ∨ c = '\n' ∨ c = '\r' ∨ c = '\x0b' ∨ c = '\x0c'

/-- Python `str.strip()`. -/
def pyStrip (cs : List Char) : List Char :=
  ((cs.dropWhile isPySpace).reverse.dropWhile isPySpace).reverse

/-- Python `str.lower()` (the names compared are ASCII). -/
def pyLower (s : String) : String :=
  String.mk (s.toList.map Char.toLower)

/-- Numeric value of a list of decimal digit characters. -/
def digitsToNat (cs : List Char) : ℕ :=
  cs.foldl (fun a c => a * 10 + (c.toNat - 48)) 0

/-- Consume exactly `k` leading digits (the `%Y` directive and the
two-digit fields of `fromisoformat` match a fixed digit count). -/
def takeExactDigits (k : ℕ) (cs : List Char) : Option (ℕ × List Char) :=
  let pre := cs.take k
  if pre.length = k ∧ pre.all Char.isDigit then
    some (digitsToNat pre, cs.drop k)
  else none

/-- Consume one or two leading digits, greedily.  The numeric-range checks
of the `strptime` directives (`%m`, `%d`, `%H`, `%M`, `%S`) are performed
afterwards by the calling parser; since every such field is followed by a
non-digit literal or the end of the string, greedy matching agrees with the
CPython regex. -/
def take1or2Digits (cs : List Char) : Option (ℕ × List Char) :=
  match cs with
  | [] => Option.none
  | [c] => if c.isDigit then some (digitsToNat [c], []) else Option.none
  | c1 :: c2 :: rest =>
    if c1.isDigit ∧ c2.isDigit then some (digitsToNat [c1, c2], rest)
    else if c1.isDigit then some (digitsToNat [c1], c2 :: rest)
    else Option.none

/-- Consume the literal character `c`. -/
def expectChar (c : Char) (cs : List Char) : Option (List Char) :=
  match cs with
  | [] => Option.none
  | c1 :: rest => if c1 = c then some rest else Option.none

/-- `True` exactly when `year` is a leap year of the proleptic Gregorian
calendar used by `datetime.date`. -/
def isLeapYear (y : ℕ) : Bool :=
  (y % 4 = 0 ∧ y % 100 ≠ 0) ∨ y % 400 = 0

/-- Number of days in month `m` of year `y`. -/
def daysInMonth (y m : ℕ) : ℕ :=
  if m = 2 then (if isLeapYear y then 29 else 28)
  else if m = 4 ∨ m = 6 ∨ m = 9 ∨ m = 11 then 30
  else 31

/-- The `(y, m, d)` triples accepted by the `datetime.date` constructor. -/
def validDate (y m d : ℕ) : Bool :=
  1 ≤ y ∧ y ≤ 9999 ∧ 1 ≤ m ∧ m ≤ 12 ∧ 1 ≤ d ∧ d ≤ daysInMonth y m

/-- Day ordinal of a proleptic-Gregorian date, as days since 1970-01-01
(the days-from-civil algorithm).  Only differences of ordinals are used, so
the choice of epoch is immaterial. -/
def dateOrdinal (y m d : ℕ) : ℤ :=
  let yy : ℤ := if m ≤ 2 then (y : ℤ) - 1 else (y : ℤ)
  let era : ℤ := Int.fdiv yy 400
  let yoe : ℤ := yy - era * 400
  let mp : ℤ := ((m : ℤ) + 9) % 12
  let doy : ℤ := Int.fdiv (153 * mp + 2) 5 + (d : ℤ) - 1
  let doe : ℤ := yoe * 365 + Int.fdiv yoe 4 - Int.fdiv yoe 100 + doy
  era * 146097 + doe - 719468

/-- Validate hour, minute and second fields.  `strptime` admits `%S` values
of 60 and 61 at the regex level, but `datetime` construction then raises
`ValueError`, which the source catches before trying the next format; the
net effect is the 0-59 bound used here. -/
def validHMS (h mi s : ℕ) : Bool :=
  h ≤ 23 ∧ mi ≤ 59 ∧ s ≤ 59

/-- Parse `%H:%M:%S`. -/
def parseHMS (cs : List Char) : Option ((ℕ × ℕ × ℕ) × List Char) := do
  let (h, cs) ← take1or2Digits cs
  let cs ← expectChar ':' cs
  let (mi, cs) ← take1or2Digits cs
  let cs ← expectChar ':' cs
  let (s, cs) ← take1or2Digits cs
  if validHMS h mi s then some ((h, mi, s), cs) else Option.none

/-- Parse `%Y-%m-%d` (year of exactly four digits, month and day of one or
two digits). -/
def parseYMDpart (cs : List Char) : Option ((ℕ × ℕ × ℕ) × List Char) := do
  let (y, cs) ← takeExactDigits 4 cs
  let cs ← expectChar '-' cs
  let (m, cs) ← take1or2Digits cs
  let cs ← expectChar '-' cs
  let (d, cs) ← take1or2Digits cs
  some ((y, m, d), cs)

/-- `datetime.datetime.strptime(value, "%Y-%m-%d").date()` as a day
ordinal: the whole string must be consumed and the date must be valid. -/
def strptimeDateOnly (cs : List Char) : Option ℤ := do
  let ((y, m, d), cs) ← parseYMDpart cs
  match cs with
  | [] => if validDate y m d then some (dateOrdinal y m d) else Option.none
  | _ => Option.none

/-- `strptime` with format `%Y-%m-%d<sep>%H:%M:%S` and, when `requireZ` is
set, a trailing literal `Z` — covering the `"%Y-%m-%dT%H:%M:%SZ"`,
`"%Y-%m-%dT%H:%M:%S"` and `"%Y-%m-%d %H:%M:%S"` formats.  Only the `.date()`
part of the result is kept. -/
def strptimeWithTime (sep : Char) (requireZ : Bool) (cs : List Char) : Option ℤ := do
  let ((y, m, d), cs) ← parseYMDpart cs
  let cs ← expectChar sep cs
  let (_, cs) ← parseHMS cs
  let cs ← if requireZ then expectChar 'Z' cs else some cs
  match cs with
  | [] => if validDate y m d then some (dateOrdinal y m d) else Option.none
  | _ => Option.none

/-- Optional fractional-second part `.f` with one to six digits, consuming
nothing when no dot is present. -/
def parseIsoFraction (cs : List Char) : Option (List Char) :=
  match cs with
  | '.' :: rest =>
    let ds := rest.takeWhile Char.isDigit
    if 1 ≤ ds.length ∧ ds.length ≤ 6 then some (rest.drop ds.length)
    else Option.none
  | _ => some cs

/-- Time-of-day portion of `fromisoformat`: `HH[:MM[:SS[.ffffff]]]` with
two-digit fields. -/
def parseIsoTime (cs : List Char) : Option (List Char) := do
  let (h, cs) ← takeExactDigits 2 cs
  if h > 23 then Option.none
  else
    match cs with
    | ':' :: cs1 => do
      let (mi, cs2) ← takeExactDigits 2 cs1
      if mi > 59 then Option.none
      else
        match cs2 with
        | ':' :: cs3 => do
          let (s, cs4) ← takeExactDigits 2 cs3
          if s > 59 then Option.none else parseIsoFraction cs4
        | _ => some cs2
    | _ => some cs

/-- Optional UTC-offset suffix `±HH:MM` of `fromisoformat`; an empty rest
means no offset. -/
def parseIsoOffset (cs : List Char) : Option (List Char) :=
  match cs with
  | [] => some []
  | c :: rest =>
    if c = '+' ∨ c = '-' then
      (do
        let (oh, cs) ← takeExactDigits 2 rest
        let cs ← expectChar ':' cs
        let (om, cs) ← takeExactDigits 2 cs
        if oh ≤ 23 ∧ om ≤ 59 then some cs else Option.none)
    else Option.none

/-- `datetime.datetime.fromisoformat(value).date()` as a day ordinal,
modelling the grammar accepted by every CPython version since 3.7:
`YYYY-MM-DD`, optionally followed by one arbitrary separator character, a
time of day, and a UTC offset.  The `.date()` call keeps the civil date
unchanged (no timezone conversion). -/
def fromIsoDate (cs : List Char) : Option ℤ := do
  let (y, cs) ← takeExactDigits 4 cs
  let cs ← expectChar '-' cs
  let (m, cs) ← takeExactDigits 2 cs
  let cs ← expectChar '-' cs
  let (d, cs) ← takeExactDigits 2 cs
  if validDate y m d then
    match cs with
    | [] => some (dateOrdinal y m d)
    | _sep :: cs1 => do
      let cs2 ← parseIsoTime cs1
      let cs3 ← parseIsoOffset cs2
      match cs3 with
      | [] => some (dateOrdinal y m d)
      | _ => Option.none
  else Option.none

/-- `value.replace("Z", "+00:00")`, applied before the ISO fallback. -/
def replaceZ : List Char → List Char
  | [] => []
  | c :: cs =>
    if c = 'Z' then '+' :: '0' :: '0' :: ':' :: '0' :: '0' :: replaceZ cs
    else c :: replaceZ cs

/-! ### Temporal filters (`data_utils.py` lines 92-132 and 152-177) -/

/-- The inner `_parse_date` of `filter_recent_articles`, applied to the
result of `getattr(article, "published_date", "")` (so the argument is a
Python value that is either `None` or a string): `None` and the empty string
are falsy and yield `None`; otherwise the string is stripped and the format
tuple `("%Y-%m-%d", "%Y-%m-%dT%H:%M:%SZ", "%Y-%m-%dT%H:%M:%S",
"%Y-%m-%d %H:%M:%S")` is tried in order, then the ISO fallback. -/
def parseDateArticle (value : Option String) : Option ℤ :=
  match value with
  | Option.none => Option.none
  | some s =>
    if s = "" then Option.none
    else
      let cs := pyStrip s.toList
      (strptimeDateOnly cs).orElse fun _ =>
      (strptimeWithTime 'T' true cs).orElse fun _ =>
      (strptimeWithTime 'T' false cs).orElse fun _ =>
      (strptimeWithTime ' ' false cs).orElse fun _ =>
      fromIsoDate (replaceZ cs)

/-- The inner `_parse` of `filter_recent_transactions`; identical to
`parseDateArticle` except that its format tuple omits
`"%Y-%m-%dT%H:%M:%S"`. -/
def parseDateTxn (value : Option String) : Option ℤ :=
  match value with
  | Option.none => Option.none
  | some s =>
    if s = "" then Option.none
    else
      let cs := pyStrip s.toList
      (strptimeDateOnly cs).orElse fun _ =>
      (strptimeWithTime 'T' true cs).orElse fun _ =>
      (strptimeWithTime ' ' false cs).orElse fun _ =>
      fromIsoDate (replaceZ cs)

/-- `getattr(obj, field, "")` on an `Attr String` slot, as the Python value
seen by the caller: a missing attribute becomes `""`, a `None` attribute
stays `None`, a present string is returned. -/
def attrStrOrEmpty : Attr String → Option String
  | .missing => some ""
  | .null => Option.none
  | .val s => some s

/-- A news article; the recency filter reads only `published_date`, and
`title` stands for the payload fields (`title`, `source`, `content`) that
the filter passes through untouched. -/
structure Article where
  title : String
  published_date : Attr String
deriving DecidableEq, Repr

/-- An insider transaction; the filters read only `name` and
`transaction_date`, and `payload` stands for the remaining fields (`title`,
`transaction_type`, `shares`, `price`, `value`) passed through untouched. -/
structure Transaction where
  name : Attr String
  transaction_date : Attr String
  payload : String
deriving DecidableEq, Repr

/-- Loop body of `filter_recent_articles`: parse, skip undated articles,
skip articles older than `max_age_days`, keep the rest in order. -/
def fraGo (as_of max_age_days : ℤ) : List Article → List Article
  | [] => []
  | article :: rest =>
    match parseDateArticle (attrStrOrEmpty article.published_date) with
    | Option.none => fraGo as_of max_age_days rest
    | some published_on =>
      if as_of - published_on > max_age_days then fraGo as_of max_age_days rest
      else article :: fraGo as_of max_age_days rest

/-- `filter_recent_articles(articles, as_of, max_age_days=120)`; the
`articles or []` guard turns an absent collection into the empty list. -/
def filter_recent_articles (articles : Option (List Article))
    (as_of max_age_days : ℤ) : List Article :=
  fraGo as_of max_age_days (articles.getD [])

/-- The placeholder-name set `PLACEHOLDER_NAMES`. -/
def PLACEHOLDER_NAMES : List String :=
  ["john doe", "jane smith", "alice johnson"]

/-- `getattr(txn, "name", "").strip().lower()`: a missing attribute falls
back to `""`; an attribute that is present but `None` reaches
`None.strip()`, which raises an `AttributeError` that nothing in the
function catches. -/
def txnName (txn : Transaction) : Except Unit String :=
  match txn.name with
  | .missing => .ok ""
  | .null => .error ()
  | .val s => .ok (pyLower (String.mk (pyStrip s.toList)))

/-- Loop body of `filter_valid_transactions`: an uncaught exception from
any iteration aborts the whole call. -/
def fvtGo : List Transaction → Except Unit (List Transaction)
  | [] => .ok []
  | txn :: rest =>
    match txnName txn with
    | .error e => .error e
    | .ok name =>
      if name = "" ∨ name ∈ PLACEHOLDER_NAMES then fvtGo rest
      else (fvtGo rest).map (txn :: ·)

/-- `filter_valid_transactions(transactions)`. -/
def filter_valid_transactions (transactions : Option (List Transaction)) :
    Except Unit (List Transaction) :=
  fvtGo (transactions.getD [])

/-- Loop body of `filter_recent_transactions`, run over the already
name-filtered list; date parsing never raises (an absent or `None` date
only makes the record undated). -/
def frtGo (as_of max_age_days : ℤ) : List Transaction → List Transaction
  | [] => []
  | txn :: rest =>
    match parseDateTxn (attrStrOrEmpty txn.transaction_date) with
    | Option.none => frtGo as_of max_age_days rest
    | some txn_date =>
      if as_of - txn_date > max_age_days then frtGo as_of max_age_days rest
      else txn :: frtGo as_of max_age_days rest

/-- `filter_recent_transactions(transactions, as_of, max_age_days=365)`:
first `filter_valid_transactions`, then the recency window. -/
def filter_recent_transactions (transactions : Option (List Transaction))
    (as_of max_age_days : ℤ) : Except Unit (List Transaction) :=
  (filter_valid_transactions transactions).map (frtGo as_of max_age_days)

/-- Keep-predicate equivalent to one iteration of the article loop (used to
state order-preservation as a `List.filter`). -/
def keepArticle (as_of max_age_days : ℤ) (a : Article) : Bool :=
  match parseDateArticle (attrStrOrEmpty a.published_date) with
  | Option.none => false
  | some d => decide (as_of - d ≤ max_age_days)

/-- Keep-predicate of the transaction recency loop. -/
def keepTxn (as_of max_age_days : ℤ) (t : Transaction) : Bool :=
  match parseDateTxn (attrStrOrEmpty t.transaction_date) with
  | Option.none => false
  | some d => decide (as_of - d ≤ max_age_days)

/-! ### Concrete records used by the claims -/

/-- Article published within the 120-day window of 2024-06-01. -/
def articleFresh : Article := ⟨"fresh", .val "2024-05-01"⟩

/-- Article published far outside the window. -/
def articleStale : Article := ⟨"stale", .val "2023-01-01"⟩

/-- Article whose date string parses under no accepted format. -/
def articleUndated : Article := ⟨"undated", .val "not a date"⟩

/-- Article exactly 120 days before 2024-06-01 (2024 is a leap year). -/
def articleBoundary : Article := ⟨"boundary", .val "2024-02-02"⟩

/-- Article 121 days before 2024-06-01. -/
def articleOutside : Article := ⟨"outside", .val "2024-02-01"⟩

/-- Transaction with a genuine insider name and a recent date. -/
def txnValid : Transaction := ⟨.val "Maria Chen", .val "2024-05-01", "Director"⟩

/-- Transaction carrying a placeholder name. -/
def txnPlaceholder : Transaction := ⟨.val "John Doe", .val "2024-05-01", "CEO"⟩

/-- Transaction whose `name` attribute is present but `None`. -/
def txnNullName : Transaction := ⟨.null, .val "2024-05-01", "CFO"⟩

/-- Transaction whose `name` attribute is missing altogether. -/
def txnMissingName : Transaction := ⟨.missing, .val "2024-05-01", "COO"⟩

/-! ### Helper lemmas -/

/-- The article loop is `List.filter` over the keep-predicate: it keeps
exactly the in-window dated articles and preserves their input order. -/
theorem fraGo_eq_filter (a m : ℤ) (l : List Article) :
    fraGo a m l = l.filter (keepArticle a m) := by
  induction l with
  | nil => rfl
  | cons x xs ih =>
    rw [List.filter_cons]
    simp only [fraGo]
    cases hp : parseDateArticle (attrStrOrEmpty x.published_date) with
    | none =>
      have hk : keepArticle a m x = false := by simp [keepArticle, hp]
      simp [hk, ih]
    | some d =>
      by_cases hgt : a - d > m
      · have hk : keepArticle a m x = false := by
          simp only [keepArticle, hp, decide_eq_false_iff_not]
          omega
        simp [hgt, hk, ih]
      · have hk : keepArticle a m x = true := by
          simp only [keepArticle, hp, decide_eq_true_eq]
          omega
        simp [hgt, hk, ih]

/-- The transaction recency loop is `List.filter` over its keep-predicate. -/
theorem frtGo_eq_filter (a m : ℤ) (l : List Transaction) :
    frtGo a m l = l.filter (keepTxn a m) := by
  induction l with
  | nil => rfl
  | cons x xs ih =>
    rw [List.filter_cons]
    simp only [frtGo]
    cases hp : parseDateTxn (attrStrOrEmpty x.transaction_date) with
    | none =>
      have hk : keepTxn a m x = false := by simp [keepTxn, hp]
      simp [hk, ih]
    | some d =>
      by_cases hgt : a - d > m
      · have hk : keepTxn a m x = false := by
          simp only [keepTxn, hp, decide_eq_false_iff_not]
          omega
        simp [hgt, hk, ih]
      · have hk : keepTxn a m x = true := by
          simp only [keepTxn, hp, decide_eq_true_eq]
          omega
        simp [hgt, hk, ih]

/-- A transaction survives the name filter: its name resolves without an
exception and is neither empty nor a placeholder. -/
def keptTxn (t : Transaction) : Bool :=
  match txnName t with
  | .error _ => false
  | .ok name => if name = "" ∨ name ∈ PLACEHOLDER_NAMES then false else true

/-- Every member of a successful `fvtGo` output is a kept transaction. -/
theorem fvtGo_ok_mem {l r : List Transaction} (h : fvtGo l = .ok r) :
    ∀ t ∈ r, keptTxn t = true := by
  induction l generalizing r with
  | nil =>
    simp only [fvtGo, Except.ok.injEq] at h
    subst h
    intro t ht
    cases ht
  | cons x xs ih =>
    cases hn : txnName x with
    | error e => simp [fvtGo, hn] at h
    | ok name =>
      simp only [fvtGo, hn] at h
      by_cases hskip : name = "" ∨ name ∈ PLACEHOLDER_NAMES
      · rw [if_pos hskip] at h
        exact ih h
      · rw [if_neg hskip] at h
        cases hrec : fvtGo xs with
        | error e => rw [hrec] at h; simp [Except.map] at h
        | ok rs =>
          rw [hrec] at h
          simp only [Except.map, Except.ok.injEq] at h
          subst h
          intro t ht
          rcases List.mem_cons.mp ht with rfl | hmem
          · simp [keptTxn, hn, hskip]
          · exact ih hrec t hmem

/-- A list of kept transactions passes the name filter unchanged. -/
theorem fvtGo_fixpoint {l : List Transaction} (h : ∀ t ∈ l, keptTxn t = true) :
    fvtGo l = .ok l := by
  induction l with
  | nil => rfl
  | cons x xs ih =>
    have hx : keptTxn x = true := h x (List.mem_cons_self x xs)
    cases hn : txnName x with
    | error e =>
      simp only [keptTxn, hn] at hx
      exact Bool.noConfusion hx
    | ok name =>
      simp only [keptTxn, hn] at hx
      by_cases hskip : name = "" ∨ name ∈ PLACEHOLDER_NAMES
      · rw [if_pos hskip] at hx; exact Bool.noConfusion hx
      · simp only [fvtGo, hn, if_neg hskip]
        rw [ih fun t ht => h t (List.mem_cons_of_mem x ht)]
        rfl

/-- A name-filter run that succeeds also succeeds, with the same output, on
its own output. -/
theorem fvtGo_idem {l r : List Transaction} (h : fvtGo l = .ok r) :
    fvtGo r = .ok r :=
  fvtGo_fixpoint (fvtGo_ok_mem h)

/-- One successfully named transaction in front of a successful run keeps
the run successful. -/
theorem fvtGo_cons_ok (x : Transaction) (xs : List Transaction) {name : String}
    (hn : txnName x = .ok name) {r : List Transaction} (hr : fvtGo xs = .ok r) :
    ∃ r2, fvtGo (x :: xs) = .ok r2 := by
  simp only [fvtGo, hn]
  by_cases hskip : name = "" ∨ name ∈ PLACEHOLDER_NAMES
  · rw [if_pos hskip]; exact ⟨r, hr⟩
  · rw [if_neg hskip, hr]; exact ⟨x :: r, rfl⟩

/-- Transactions whose `name` attribute is not a present `None` never make
the name filter raise. -/
theorem fvtGo_ok_of_no_null {l : List Transaction}
    (h : ∀ t ∈ l, t.name ≠ Attr.null) : ∃ r, fvtGo l = .ok r := by
  induction l with
  | nil => exact ⟨[], rfl⟩
  | cons x xs ih =>
    obtain ⟨r, hr⟩ := ih fun t ht => h t (List.mem_cons_of_mem x ht)
    have hx := h x (List.mem_cons_self x xs)
    cases hn : x.name with
    | missing =>
      have hok : txnName x = .ok "" := by simp [txnName, hn]
      exact fvtGo_cons_ok x xs hok hr
    | null => exact absurd hn hx
    | val s =>
      have hok : txnName x = .ok (pyLower (String.mk (pyStrip s.toList))) := by
        simp [txnName, hn]
      exact fvtGo_cons_ok x xs hok hr

/-- Rounding an exact half: the parity of the floor decides, which is the
tie-to-even behaviour of CPython `round`. -/
theorem roundHalfEven_add_half (n : ℤ) :
    roundHalfEven ((n : ℚ) + 1/2) = if n % 2 = 0 then n else n + 1 := by
  have hf : ⌊(n : ℚ) + 1/2⌋ = n := by
    rw [Int.floor_int_add]
    have : ⌊(1/2 : ℚ)⌋ = 0 := by
      rw [Int.floor_eq_iff]
      norm_num
    omega
  simp only [roundHalfEven, hf]
  have hr : (n : ℚ) + 1/2 - (n : ℚ) = 1/2 := by ring
  rw [hr]
  norm_num

/-- `roundHalfEven` lands within half a unit of its argument: it rounds to
a nearest integer. -/
theorem roundHalfEven_nearest (q : ℚ) : |q - (roundHalfEven q : ℚ)| ≤ 1/2 := by
  have h0 : (⌊q⌋ : ℚ) ≤ q := Int.floor_le q
  have h1 : q < ⌊q⌋ + 1 := Int.lt_floor_add_one q
  simp only [roundHalfEven]
  split_ifs with ha hb hc
  all_goals
    rw [abs_le]
    push_cast
    constructor <;> linarith

/-! ### Claim theorems -/

/-- C1 (counterexample): the claim says every numeric formatter returns
`"N/A"` on a non-numeric argument and never raises, but `format_ratio`
applies the `f` format code to its argument with no exception handler, so a
non-numeric argument raises instead of producing `"N/A"`. -/
theorem format_ratio_raises_on_non_numeric :
    format_ratio PyVal.nonNumeric 2 = .error () := rfl

/-- C1 (amended): `format_percent`, `format_currency` and `format_integer`
return exactly `"N/A"` on an absent or non-coercible argument and, being
total functions into `String`, never raise; `format_ratio` returns `"N/A"`
on an absent argument but raises on a non-numeric one. -/
theorem formatters_na_on_invalid :
    (∀ (d : ℕ) (af : Bool), format_percent PyVal.none d af = "N/A")
    ∧ (∀ (d : ℕ) (af : Bool), format_percent PyVal.nonNumeric d af = "N/A")
    ∧ format_currency PyVal.none = "N/A"
    ∧ format_currency PyVal.nonNumeric = "N/A"
    ∧ format_integer PyVal.none = "N/A"
    ∧ format_integer PyVal.nonNumeric = "N/A"
    ∧ (∀ d : ℕ, format_ratio PyVal.none d = .ok "N/A")
    ∧ (∀ d : ℕ, format_ratio PyVal.nonNumeric d = .error ()) :=
  ⟨fun _ _ => rfl, fun _ _ => rfl, rfl, rfl, rfl, rfl, fun _ => rfl, fun _ => rfl⟩

/-- C2 (counterexample): the claim says every non-null result lies in
`[0, 0.25]`, but a raw value of `0.5` is returned unchanged by the
`0 ≤ raw ≤ 1` branch and exceeds `0.25`. -/
theorem sanitize_dividend_yield_exceeds_quarter :
    sanitize_dividend_yield (some (1/2)) = some (1/2) ∧ ¬ ((1 : ℚ)/2 ≤ 0.25) := by
  constructor
  · with_unfolding_all decide
  · norm_num

/-- C2 (amended): every non-null result of `sanitize_dividend_yield` lies
in `[0, 1]`; results of the percent-normalization branch (`raw > 1`) are
additionally bounded by `0.25`. -/
theorem sanitize_dividend_yield_range :
    (∀ raw q : ℚ, sanitize_dividend_yield (some raw) = some q → 0 ≤ q ∧ q ≤ 1)
    ∧ (∀ raw q : ℚ, 1 < raw → sanitize_dividend_yield (some raw) = some q →
        q ≤ 0.25) := by
  constructor
  · intro raw q h
    have q1 : (0.25 : ℚ) ≤ 1 := by norm_num
    simp only [sanitize_dividend_yield] at h
    split_ifs at h with h1 h2 h3 h4 h5
    all_goals first
      | exact absurd h fun hc => Option.noConfusion hc
      | (simp only [Option.some.injEq] at h
         subst h
         constructor <;> linarith)
  · intro raw q hgt h
    simp only [sanitize_dividend_yield] at h
    split_ifs at h with h1 h2 h3 h4
    all_goals first
      | exact absurd h fun hc => Option.noConfusion hc
      | (simp only [Option.some.injEq] at h
         subst h
         linarith)

/-- C2 (witness): instantiates `sanitize_dividend_yield_range` at raw
value 4, which the sanitizer returns as the fraction `1/25`. -/
theorem sanitize_dividend_yield_range_witness :
    (0 ≤ (1 : ℚ)/25 ∧ (1 : ℚ)/25 ≤ 1) ∧ (1 : ℚ)/25 ≤ 0.25 :=
  ⟨sanitize_dividend_yield_range.1 4 (1/25) (by with_unfolding_all decide),
   sanitize_dividend_yield_range.2 4 (1/25) (by norm_num)
     (by with_unfolding_all decide)⟩

/-- C3 (counterexample): the claim says `formatInteger(1234.5)` is
`"1,235"`; CPython `round` rounds the exact half `1234.5` to the even
integer `1234`, so the code renders `"1,234"`. -/
theorem format_integer_not_half_away :
    format_integer (PyVal.num (1234.5 : ℚ)) ≠ "1,235" := by
  with_unfolding_all decide

/-- C3 (amended): `formatInteger(1234.5)` renders `"1,234"`; on every
numeric input the value is rounded to a nearest integer (within half a
unit), exact halves going to the even neighbour, and the result is rendered
with thousands separators and no decimals. -/
theorem format_integer_rounds_ties_to_even :
    format_integer (PyVal.num (1234.5 : ℚ)) = "1,234"
    ∧ (∀ n : ℤ, roundHalfEven ((n : ℚ) + 1/2) = if n % 2 = 0 then n else n + 1)
    ∧ (∀ q : ℚ, |q - (roundHalfEven q : ℚ)| ≤ 1/2)
    ∧ (∀ q : ℚ, format_integer (PyVal.num q) = intThousands (roundHalfEven q)) :=
  ⟨by with_unfolding_all decide, roundHalfEven_add_half, roundHalfEven_nearest,
   fun _ => rfl⟩

/-- C5: the sanitizer's exact case analysis — absent or negative raw gives
null, raw above 50 (in particular above 1000) gives null, raw in `(1, 50]`
is divided by 100 and kept only when the result is at most `0.25`, raw in
`[0, 1]` is returned unchanged — together with the five concrete examples
of the specification. -/
theorem sanitize_dividend_yield_cases :
    (∀ raw : ℚ, sanitize_dividend_yield (some raw) =
        (if raw < 0 then Option.none
         else if 50 < raw then Option.none
         else if 1 < raw then
           (if raw / 100 ≤ 0.25 then some (raw / 100) else Option.none)
         else some raw))
    ∧ sanitize_dividend_yield Option.none = Option.none
    ∧ sanitize_dividend_yield (some (-1)) = Option.none
    ∧ sanitize_dividend_yield (some 0.04) = some 0.04
    ∧ sanitize_dividend_yield (some 4) = some 0.04
    ∧ sanitize_dividend_yield (some 60) = Option.none
    ∧ sanitize_dividend_yield (some 2000) = Option.none := by
  refine ⟨?_, rfl, by with_unfolding_all decide, by with_unfolding_all decide,
    by with_unfolding_all decide, by with_unfolding_all decide,
    by with_unfolding_all decide⟩
  intro raw
  simp only [sanitize_dividend_yield]
  split_ifs <;> first | rfl | linarith

/-- C6: `is_price_analysis_reliable` returns `true` exactly on records with
every required field present and within the plausibility bounds (so it
returns `false` whenever the record is absent, a field is absent or its
access fails, `|total_return_percent| > 400`, `volatility` lies outside
`[0, 200]`, a price bound is non-positive, `min_price ≥ max_price`, or
`average_volume ≤ 0`), and accepts the concrete well-formed record of the
specification. -/
theorem price_analysis_reliability :
    (∀ pa : PriceAnalysis,
        is_price_analysis_reliable (some pa) = reliableSpec pa)
    ∧ is_price_analysis_reliable Option.none = false
    ∧ is_price_analysis_reliable
        (some ⟨.val 15, .val 20, .val 100, .val 200, .val 1000⟩) = true := by
  refine ⟨?_, rfl, by with_unfolding_all decide⟩
  intro pa
  rcases pa with ⟨f1, f2, f3, f4, f5⟩
  cases f1 <;> cases f2 <;> cases f3 <;> cases f4 <;> cases f5 <;>
    simp only [is_price_analysis_reliable, reliableSpec] <;>
    try simp only [ite_self]
  all_goals rename_i trp vol mn mx av
  all_goals
    split_ifs with h1 h2 h3 h4 h5
    · simp [not_le.mpr h1]
    · rcases h2 with h | h
      · simp [not_le.mpr h]
      · simp [not_le.mpr h]
    · rcases h3 with h | h
      · simp [not_lt.mpr h]
      · simp [not_lt.mpr h]
    · simp [not_lt.mpr h4]
    · simp [not_lt.mpr h5]
    · push_neg at h1 h2 h3 h4 h5
      simp [h1, h2.1, h2.2, h3.1, h3.2, h4, h5]

/-- C7: `filter_recent_articles` keeps exactly the articles whose
`published_date` parses under an accepted format and whose age satisfies
`as_of - published ≤ max_age_days` (inclusive at the boundary), drops
articles with an unparseable or absent date, and preserves input order —
with the specification's examples at `as_of = 2024-06-01`,
`max_age_days = 120`, plus both sides of the inclusive boundary. -/
theorem recent_articles_window :
    (∀ (arts : List Article) (a m : ℤ),
        filter_recent_articles (some arts) a m = arts.filter (keepArticle a m))
    ∧ filter_recent_articles (some [articleFresh, articleStale, articleUndated])
        (dateOrdinal 2024 6 1) 120 = [articleFresh]
    ∧ filter_recent_articles (some [articleBoundary, articleOutside])
        (dateOrdinal 2024 6 1) 120 = [articleBoundary]
    ∧ parseDateArticle (some "2024-05-01") = some (dateOrdinal 2024 5 1)
    ∧ parseDateArticle (some "not a date") = Option.none
    ∧ dateOrdinal 2024 6 1 - dateOrdinal 2024 5 1 = 31
    ∧ dateOrdinal 2024 6 1 - dateOrdinal 2023 1 1 = 517 :=
  ⟨fun arts a m => fraGo_eq_filter a m arts, by decide, by decide, by decide,
   by decide, by decide, by decide⟩

/-- C8: `format_percent` multiplies by 100 exactly when `assume_fractional`
is set or the absolute value is at most 1, renders fixed-point with the
requested decimals and a trailing `%`, and in particular maps both `0.5`
and `50` to `"50.00%"`. -/
theorem percent_scaling_heuristic :
    (∀ (v : ℚ) (d : ℕ) (af : Bool), af = true ∨ |v| ≤ 1 →
        format_percent (PyVal.num v) d af = fixedFormat (v * 100) d ++ "%")
    ∧ (∀ (v : ℚ) (d : ℕ), 1 < |v| →
        format_percent (PyVal.num v) d false = fixedFormat v d ++ "%")
    ∧ format_percent (PyVal.num (1/2)) 2 false = "50.00%"
    ∧ format_percent (PyVal.num 50) 2 false = "50.00%" := by
  refine ⟨?_, ?_, by with_unfolding_all decide, by with_unfolding_all decide⟩
  · intro v d af h
    simp [format_percent, h]
  · intro v d h
    simp [format_percent, not_le.mpr h]

/-- C8 (witness): instantiates both scaling branches of
`percent_scaling_heuristic` at the specification's example values. -/
theorem percent_scaling_heuristic_witness :
    format_percent (PyVal.num (1/2)) 2 false = fixedFormat ((1/2 : ℚ) * 100) 2 ++ "%"
    ∧ format_percent (PyVal.num 50) 2 false = fixedFormat (50 : ℚ) 2 ++ "%" :=
  ⟨percent_scaling_heuristic.1 (1/2) 2 false
     (Or.inr (by rw [abs_le]; constructor <;> norm_num)),
   percent_scaling_heuristic.2.1 50 2 (by norm_num)⟩

/-- C9: each filter is idempotent — filtering an already-filtered
collection again (with the same reference date and window) removes nothing
further; for the fallible transaction filters, a run that succeeded
succeeds on its own output and returns it unchanged. -/
theorem filters_idempotent :
    (∀ (arts : Option (List Article)) (a m : ℤ),
        filter_recent_articles (some (filter_recent_articles arts a m)) a m
          = filter_recent_articles arts a m)
    ∧ (∀ (ts : Option (List Transaction)) (l : List Transaction),
        filter_valid_transactions ts = .ok l →
          filter_valid_transactions (some l) = .ok l)
    ∧ (∀ (ts : Option (List Transaction)) (a m : ℤ) (l : List Transaction),
        filter_recent_transactions ts a m = .ok l →
          filter_recent_transactions (some l) a m = .ok l) := by
  refine ⟨?_, ?_, ?_⟩
  · intro arts a m
    show fraGo a m (fraGo a m (arts.getD [])) = fraGo a m (arts.getD [])
    simp [fraGo_eq_filter, List.filter_filter, Bool.and_self]
  · intro ts l h
    exact fvtGo_idem h
  · intro ts a m l h
    unfold filter_recent_transactions at h ⊢
    cases hv : filter_valid_transactions ts with
    | error e => rw [hv] at h; simp [Except.map] at h
    | ok r =>
      rw [hv] at h
      simp only [Except.map, Except.ok.injEq] at h
      subst h
      have hmem : ∀ t ∈ frtGo a m r, keptTxn t = true := by
        intro t ht
        rw [frtGo_eq_filter] at ht
        exact fvtGo_ok_mem hv t (List.mem_of_mem_filter ht)
      have hfix : filter_valid_transactions (some (frtGo a m r))
          = .ok (frtGo a m r) := fvtGo_fixpoint hmem
      rw [hfix]
      simp only [Except.map, Except.ok.injEq]
      simp [frtGo_eq_filter, List.filter_filter, Bool.and_self]

/-- C9 (witness): instantiates the transaction branches of
`filters_idempotent` on a list whose placeholder entry is removed by the
first pass. -/
theorem filters_idempotent_witness :
    filter_valid_transactions (some [txnValid]) = .ok [txnValid]
    ∧ filter_recent_transactions (some [txnValid]) (dateOrdinal 2024 6 1) 365
        = .ok [txnValid] :=
  ⟨filters_idempotent.2.1 (some [txnValid, txnPlaceholder]) [txnValid]
     (by decide),
   filters_idempotent.2.2 (some [txnValid, txnPlaceholder])
     (dateOrdinal 2024 6 1) 365 [txnValid] (by decide)⟩

/-- C10: an absent (`None`) collection argument makes each filter return
the empty list — the `collection or []` guard — instead of raising. -/
theorem absent_collections_give_empty :
    (∀ a m : ℤ, filter_recent_articles Option.none a m = [])
    ∧ filter_valid_transactions Option.none = .ok []
    ∧ (∀ a m : ℤ, filter_recent_transactions Option.none a m = .ok []) :=
  ⟨fun _ _ => rfl, rfl, fun _ _ => rfl⟩

/-- C4 (counterexample): the claim says the transaction filters never raise
even when a record's name is null, but a present-but-`None` name reaches
`None.strip()`, whose `AttributeError` nothing catches — in both
`filter_valid_transactions` and `filter_recent_transactions`. -/
theorem null_name_raises :
    filter_valid_transactions (some [txnNullName]) = .error ()
    ∧ filter_recent_transactions (some [txnNullName]) (dateOrdinal 2024 6 1) 365
        = .error () :=
  ⟨rfl, rfl⟩

/-- C4 (amended): the transaction filters return a filtered list without
raising for every collection in which no record has a present-but-`None`
name; in particular a record whose `name` attribute is missing altogether
is handled (the `getattr` default) and silently dropped. -/
theorem transaction_filters_total_without_null_name :
    (∀ ts : List Transaction, (∀ t ∈ ts, t.name ≠ Attr.null) →
        ∃ l, filter_valid_transactions (some ts) = .ok l)
    ∧ (∀ (ts : List Transaction) (a m : ℤ), (∀ t ∈ ts, t.name ≠ Attr.null) →
        ∃ l, filter_recent_transactions (some ts) a m = .ok l)
    ∧ filter_valid_transactions (some [txnMissingName]) = .ok [] := by
  refine ⟨fun ts h => fvtGo_ok_of_no_null h, ?_, rfl⟩
  intro ts a m h
  obtain ⟨r, hr⟩ := fvtGo_ok_of_no_null (l := ts) h
  refine ⟨frtGo a m r, ?_⟩
  show (filter_valid_transactions (some ts)).map (frtGo a m) = _
  rw [show filter_valid_transactions (some ts) = .ok r from hr]
  rfl

/-- C4 (witness): instantiates `transaction_filters_total_without_null_name`
on a two-record list with one missing-name record. -/
theorem transaction_filters_total_witness :
    ∃ l, filter_valid_transactions (some [txnValid, txnMissingName]) = .ok l :=
  transaction_filters_total_without_null_name.1 [txnValid, txnMissingName]
    (by decide)

end SmarTrader
